import Mathlib

/-!
Verification development for the Qubic DEXTools adapter's
position-resolution and range-extraction engine
(`src/services/qubicRpcClient.js`, `src/services/dataTransformer.js`,
the events controller and the block controller).

The JavaScript code is shallowly embedded: the upstream RPC endpoint is an
explicit oracle (`Upstream`), the process-wide cache is explicit state
(`Cache`), `Date.now()` is the oracle's `now` field, and JS truthiness on
possibly-absent numeric / string fields is made explicit through `Option`
together with the `jsOr`-family helpers.  `Array.prototype.sort`, which
ECMAScript requires to be a stable sort (and to treat a NaN comparator
result as 0, i.e. as a tie), is modelled by the stable insertion sort
`sortBy` below.
-/

namespace QubicAdapter

/-- JS `a || b` on possibly-absent numbers: both `undefined` and `0` are
falsy, so the left value is kept only when present and nonzero. -/
def jsOr (a b : Option Nat) : Option Nat :=
  match a with
  | some v => if v ≠ 0 then some v else b
  | none => b

/-- JS `a || b` on possibly-absent integer amounts (`0` is falsy). -/
def jsOrInt (a b : Option Int) : Option Int :=
  match a with
  | some v => if v ≠ 0 then some v else b
  | none => b

/-- JS `a || b` on possibly-absent strings: `undefined` and `""` are falsy. -/
def jsOrStr (a b : Option String) : Option String :=
  match a with
  | some s => if s ≠ "" then some s else b
  | none => b

/-- JS `x <= c` for a possibly-absent `x` and a number `c`: a comparison
with `undefined` (NaN) is false. -/
def jsLeNum (x : Option Nat) (c : Nat) : Bool :=
  match x with
  | some v => v ≤ c
  | none => false

/-- JS `x >= c` for a possibly-absent `x`: false when `x` is absent. -/
def jsGeNum (x : Option Nat) (c : Nat) : Bool :=
  match x with
  | some v => c ≤ v
  | none => false

/-- JS `x < y` on possibly-absent numbers: false when either is absent. -/
def jsLtNum (x y : Option Nat) : Bool :=
  match x, y with
  | some a, some b => a < b
  | _, _ => false

/-- JS truthiness of a possibly-absent number (`if (t.tickNumber)`):
`undefined` and `0` are falsy. -/
def jsTruthyNum (x : Option Nat) : Bool :=
  match x with
  | some v => v ≠ 0
  | none => false

/-- Comparator predicate for a JS descending numeric sort
(`(a, b) => b.key - a.key`): `a` may stay before `b` iff the comparator is
`≤ 0`, i.e. `b.key ≤ a.key`; a comparison involving an absent field
produces NaN, which ECMAScript's SortCompare treats as `0` (a tie). -/
def descLe (x y : Option Nat) : Bool :=
  match x, y with
  | some a, some b => b ≤ a
  | _, _ => true

/-- Comparator predicate for a JS ascending numeric sort
(`(a, b) => a.key - b.key`) on possibly-absent keys, NaN treated as a tie. -/
def ascLe (x y : Option Nat) : Bool :=
  match x, y with
  | some a, some b => a ≤ b
  | _, _ => true

/-! ### Stable sorting

ECMAScript requires `Array.prototype.sort` to be stable.  `sortBy le`
inserts each element from the left into an accumulator, placing it after
every already-placed element `y` with `le y x` (comparator `≤ 0`), which
yields a stable sort for any comparator. -/

/-- Insert `x` after every prefix element `y` with `le y x`. -/
def insertBy {α : Type} (le : α → α → Bool) (x : α) : List α → List α
  | [] => [x]
  | y :: ys => if le y x then y :: insertBy le x ys else x :: y :: ys

/-- Stable sort by the comparator-derived predicate `le`
(`le a b` = "comparator a b ≤ 0", i.e. `a` may precede `b`). -/
def sortBy {α : Type} (le : α → α → Bool) (l : List α) : List α :=
  l.foldl (fun acc x => insertBy le x acc) []

theorem mem_insertBy {α : Type} (le : α → α → Bool) (x : α) (l : List α)
    (z : α) : z ∈ insertBy le x l ↔ z = x ∨ z ∈ l := by
  induction l with
  | nil => simp [insertBy]
  | cons y ys ih =>
    simp only [insertBy]
    by_cases h : le y x = true
    · rw [if_pos h]
      simp only [List.mem_cons, ih]
      tauto
    · rw [if_neg h]
      simp only [List.mem_cons]

theorem insertBy_perm {α : Type} (le : α → α → Bool) (x : α) (l : List α) :
    (insertBy le x l).Perm (x :: l) := by
  induction l with
  | nil => exact List.Perm.refl _
  | cons y ys ih =>
    simp only [insertBy]
    by_cases h : le y x = true
    · rw [if_pos h]
      exact (ih.cons y).trans (List.Perm.swap x y ys)
    · rw [if_neg h]

theorem foldl_insertBy_perm {α : Type} (le : α → α → Bool) :
    ∀ (l acc : List α),
      (l.foldl (fun a x => insertBy le x a) acc).Perm (l ++ acc) := by
  intro l
  induction l with
  | nil => intro acc; exact List.Perm.refl _
  | cons x xs ih =>
    intro acc
    have h1 : (x :: xs).foldl (fun a y => insertBy le y a) acc
        = xs.foldl (fun a y => insertBy le y a) (insertBy le x acc) := rfl
    rw [h1]
    have h2 := ih (insertBy le x acc)
    have h3 : (xs ++ insertBy le x acc).Perm (xs ++ x :: acc) :=
      List.Perm.append_left xs (insertBy_perm le x acc)
    have h4 : (xs ++ x :: acc).Perm (x :: (xs ++ acc)) := List.perm_middle
    exact (h2.trans h3).trans h4

theorem sortBy_perm {α : Type} (le : α → α → Bool) (l : List α) :
    (sortBy le l).Perm l := by
  simpa using foldl_insertBy_perm le l []

theorem pairwise_insertBy {α : Type} (le : α → α → Bool)
    (htr : ∀ a b c, le a b = true → le b c = true → le a c = true)
    (hto : ∀ a b, le a b = true ∨ le b a = true)
    (x : α) (l : List α) (h : l.Pairwise (fun a b => le a b = true)) :
    (insertBy le x l).Pairwise (fun a b => le a b = true) := by
  induction l with
  | nil => simp [insertBy]
  | cons y ys ih =>
    rcases List.pairwise_cons.mp h with ⟨hy, hys⟩
    simp only [insertBy]
    by_cases hle : le y x = true
    · rw [if_pos hle]
      refine List.pairwise_cons.mpr ⟨?_, ih hys⟩
      intro z hz
      rcases (mem_insertBy le x ys z).mp hz with rfl | hzys
      · exact hle
      · exact hy z hzys
    · rw [if_neg hle]
      have hxy : le x y = true := by
        rcases hto x y with h1 | h1
        · exact h1
        · exact absurd h1 hle
      refine List.pairwise_cons.mpr ⟨?_, h⟩
      intro z hz
      rcases List.mem_cons.mp hz with rfl | hzys
      · exact hxy
      · exact htr x y z hxy (hy z hzys)

theorem foldl_insertBy_pairwise {α : Type} (le : α → α → Bool)
    (htr : ∀ a b c, le a b = true → le b c = true → le a c = true)
    (hto : ∀ a b, le a b = true ∨ le b a = true) :
    ∀ (l acc : List α), acc.Pairwise (fun a b => le a b = true) →
      (l.foldl (fun a x => insertBy le x a) acc).Pairwise
        (fun a b => le a b = true) := by
  intro l
  induction l with
  | nil => intro acc h; exact h
  | cons x xs ih =>
    intro acc h
    exact ih _ (pairwise_insertBy le htr hto x acc h)

theorem sortBy_pairwise {α : Type} (le : α → α → Bool)
    (htr : ∀ a b c, le a b = true → le b c = true → le a c = true)
    (hto : ∀ a b, le a b = true ∨ le b a = true) (l : List α) :
    (sortBy le l).Pairwise (fun a b => le a b = true) :=
  foldl_insertBy_pairwise le htr hto l [] List.Pairwise.nil

theorem filter_insertBy {α : Type} (le : α → α → Bool) (p : α → Bool)
    (x : α)
    (htr : ∀ a b c, le a b = true → le b c = true → le a c = true)
    (hp : ∀ z, p z = true → p x = true → le z x = true) :
    ∀ (l : List α), l.Pairwise (fun a b => le a b = true) →
      (insertBy le x l).filter p =
        if p x then l.filter p ++ [x] else l.filter p := by
  intro l
  induction l with
  | nil =>
    intro _
    by_cases hx : p x = true <;> simp [insertBy, hx]
  | cons y ys ih =>
    intro h
    rcases List.pairwise_cons.mp h with ⟨hy, hys⟩
    simp only [insertBy]
    by_cases hle : le y x = true
    · rw [if_pos hle]
      simp only [List.filter_cons]
      rw [ih hys]
      by_cases hpy : p y = true <;> by_cases hpx : p x = true <;>
        simp [hpy, hpx]
    · rw [if_neg hle]
      by_cases hpx : p x = true
      · have hempty : (y :: ys).filter p = [] := by
          rw [List.filter_eq_nil_iff]
          intro z hz hpz
          rcases List.mem_cons.mp hz with rfl | hzys
          · exact hle (hp z hpz hpx)
          · exact hle (htr y z x (hy z hzys) (hp z hpz hpx))
        rw [if_pos hpx, hempty, List.filter_cons, if_pos hpx, hempty]
        rfl
      · rw [if_neg hpx, List.filter_cons, if_neg hpx]

theorem foldl_insertBy_filter {α : Type} (le : α → α → Bool) (p : α → Bool)
    (htr : ∀ a b c, le a b = true → le b c = true → le a c = true)
    (hto : ∀ a b, le a b = true ∨ le b a = true)
    (hp : ∀ z w, p z = true → p w = true → le z w = true) :
    ∀ (l acc : List α), acc.Pairwise (fun a b => le a b = true) →
      (l.foldl (fun a x => insertBy le x a) acc).filter p =
        acc.filter p ++ l.filter p := by
  intro l
  induction l with
  | nil => intro acc _; simp
  | cons x xs ih =>
    intro acc hacc
    have hstep := filter_insertBy le p x htr (fun z hz hx => hp z x hz hx)
      acc hacc
    have hpair := pairwise_insertBy le htr hto x acc hacc
    have h1 : (x :: xs).foldl (fun a y => insertBy le y a) acc
        = xs.foldl (fun a y => insertBy le y a) (insertBy le x acc) := rfl
    rw [h1, ih _ hpair, hstep, List.filter_cons]
    by_cases hpx : p x = true <;> simp [hpx]

/-- Stability of the modelled JS sort: elements satisfying a predicate
that forces pairwise ties keep their relative input order. -/
theorem filter_sortBy {α : Type} (le : α → α → Bool) (p : α → Bool)
    (htr : ∀ a b c, le a b = true → le b c = true → le a c = true)
    (hto : ∀ a b, le a b = true ∨ le b a = true)
    (hp : ∀ z w, p z = true → p w = true → le z w = true)
    (l : List α) : (sortBy le l).filter p = l.filter p := by
  simpa using foldl_insertBy_filter le p htr hto hp l [] List.Pairwise.nil

/-! ### Data model

`RawTick` is a tick object exactly as delivered by the upstream JSON API:
every field may be absent (`none` models a missing or `undefined`
property).  `Tick` is the record produced by
`QubicRpcClient.normalizeTickData` (and also covers the handful of
placeholder objects the client builds literally, e.g.
`{ tickNumber, timestamp }`): its `timestamp` is always set because the
normalizer defaults it with `Date.now()`. -/

structure RawTick where
  tickNumber : Option Nat
  number : Option Nat
  timestamp : Option Nat
  epoch : Option Nat
deriving Repr, DecidableEq

structure Tick where
  tickNumber : Option Nat
  number : Option Nat
  timestamp : Nat
  epoch : Option Nat
deriving Repr, DecidableEq

/-- Model of `tick.tickNumber || tick.number`, the duck-typed accessor used all
over the client on raw upstream ticks. -/
def rawTickNum (t : RawTick) : Option Nat := jsOr t.tickNumber t.number

/-- A raw transaction record as consumed by
`DataTransformer.transformTransactionsToEvents`.  `fromAddr` stands for
the JS property `from`.  Amounts are kept as optional integers; the
`_formatAmount` decimal-string rendering (JS `toFixed`) is not modelled
because no claim inspects amount formatting. -/
structure Txn where
  type : Option String
  id : Option String
  txId : Option String
  index : Option Nat
  eventIndex : Option Nat
  sender : Option String
  fromAddr : Option String
  pairId : Option String
  amount0In : Option Int
  amount1Out : Option Int
  amount0Out : Option Int
  amount1In : Option Int
  amount0 : Option Int
  amount1 : Option Int
  reservesToken0 : Option Int
  reservesAsset0 : Option Int
  reservesToken1 : Option Int
  reservesAsset1 : Option Int
deriving Repr, DecidableEq

/-- A transaction record with every field absent; base for the concrete
scenario transactions below. -/
def Txn.mk0 : Txn :=
  ⟨none, none, none, none, none, none, none, none, none, none, none,
   none, none, none, none, none, none, none⟩

structure Block where
  blockNumber : Nat
  blockTimestamp : Nat
deriving Repr, DecidableEq

inductive EventType where
  | creation
  | swap
  | join
  | exit
deriving Repr, DecidableEq

/-- A DEXTools event as built by `transformTransactionsToEvents`: the
common `baseEvent` fields plus the per-type payload (absent fields are
`none`).  The random fallback ids generated for transactions without
`id`/`txId` are not modelled (`txnId` is left `none` instead); no claim
depends on `txnId`. -/
structure Event where
  block : Block
  txnId : Option String
  txnIndex : Nat
  eventIndex : Nat
  maker : String
  pairId : String
  eventType : EventType
  asset0In : Option Int
  asset1Out : Option Int
  asset0Out : Option Int
  asset1In : Option Int
  amount0 : Option Int
  amount1 : Option Int
  reserves0 : Option Int
  reserves1 : Option Int
deriving Repr, DecidableEq

/-- One `/v2/epochs/{e}/ticks` response: `error` models a rejected request
(with a flag for HTTP 429), `missing` a response without a usable `ticks`
array (`!resp || !resp.ticks || !Array.isArray(resp.ticks)`), and `ok` a
successful response carrying the raw tick array (possibly empty). -/
inductive PageResp where
  | error (rateLimited : Bool)
  | missing
  | ok (ticks : List RawTick)
deriving Repr, DecidableEq

/-- The upstream RPC endpoint as a deterministic oracle, together with the
process clock.

* `latestTick`: the `/v1/latestTick` response; `none` merges a thrown
  request and a response without a truthy `latestTick` field (both make
  `getLatestTick` return the `{ tickNumber: 0 }` placeholder).
* `status`: `lastProcessedTick.epoch` from `/v1/status`; `none` merges a
  thrown request and a missing/falsy epoch field.
* `epochTicks e page pageSize`: the `/v2/epochs/{e}/ticks` response.
* `tickTransactions k`: the `/v2/ticks/{k}/transactions` response, `none`
  for a thrown request, `some l` for a success with final list `l`
  (`response.transactions || []` is absorbed into `l`).  The key is the
  possibly-absent tick number interpolated into the URL.
* `probeTransactions k`: whether the block controller's lightweight probe
  `GET /v2/ticks/{k}/transactions?page=0&pageSize=1` succeeds.
* `now`: the value of `Date.now()` (constant during one request).
* `fuel`: a bound on the page loop of `getAllTicksFromEpoch`, which in
  reality terminates because epochs are finite; all other loops in the
  client are bounded in the source itself. -/
structure Upstream where
  latestTick : Option Nat
  status : Option Nat
  epochTicks : Nat → Nat → Nat → PageResp
  tickTransactions : Option Nat → Option (List Txn)
  probeTransactions : Option Nat → Bool
  now : Nat
  fuel : Nat

/-- The slices of the process-wide cache that the claims observe: the
per-tick record cache (`cache.ticks`, keyed by the requested tick number)
and the per-tick transaction cache (`cache.transactions`).  The epoch-data
and epoch-range caches only affect cost, not results, for a deterministic
oracle, and are not threaded. -/
structure Cache where
  ticks : Nat → Option Tick
  transactions : Option Nat → Option (List Txn)

def emptyCache : Cache := ⟨fun _ => none, fun _ => none⟩

def Cache.insertTick (σ : Cache) (n : Nat) (t : Tick) : Cache :=
  ⟨fun m => if m = n then some t else σ.ticks m, σ.transactions⟩

def Cache.insertTxns (σ : Cache) (k : Option Nat) (l : List Txn) : Cache :=
  ⟨σ.ticks, fun m => if m = k then some l else σ.transactions m⟩

/-! ### `normalizeTickData`

The source builds
`{ tickNumber: t.tickNumber || t.number, timestamp: t.timestamp ||
Date.now(), epoch: t.epoch, ...t }`: the trailing spread re-applies every
property present on the raw object, overriding the three computed fields.
`Option.or base` below is exactly that override (a present raw field wins,
even when its value is `0`). -/

def normTick (now : Nat) (raw : RawTick) : Tick :=
  let baseTickNumber := jsOr raw.tickNumber raw.number
  let baseTimestamp := (jsOr raw.timestamp (some now)).getD now
  { tickNumber := raw.tickNumber.or baseTickNumber
    number := raw.number
    timestamp := raw.timestamp.getD baseTimestamp
    epoch := raw.epoch.or raw.epoch }

/-- Model of `QubicRpcClient.normalizeTickData`: `null`/`undefined` input yields
`null`, otherwise the spread-merged record above. -/
def normalizeTickData (now : Nat) (t : Option RawTick) : Option Tick :=
  t.map (normTick now)

/-- Model of `QubicRpcClient.getCurrentEpoch`, fresh-call semantics: a usable
status response with a truthy `lastProcessedTick.epoch` yields that epoch,
anything else falls back to the hard-coded epoch `152`.  (The 30-second
status cache only avoids refetching; with a deterministic oracle it cannot
change the returned value, so it is not modelled.) -/
def getCurrentEpoch (u : Upstream) : Nat :=
  match u.status with
  | some e => if e ≠ 0 then e else 152
  | none => 152

/-! ### `DataTransformer` -/

/-- Model of `DataTransformer.transformTickToBlock`. -/
def transformTickToBlock (now : Nat) (tick : Option Tick) : Block :=
  match tick with
  | none => { blockNumber := 0, blockTimestamp := now / 1000 }
  | some t =>
    { blockNumber := (jsOr t.tickNumber t.number).getD 0
      blockTimestamp := (if t.timestamp ≠ 0 then t.timestamp else now) / 1000 }

/-- Model of `DataTransformer._mapEventType`. -/
def mapEventType (ty : String) : Option EventType :=
  if ty = "PAIR_CREATED" ∨ ty = "PAIR_CREATE" ∨ ty = "CREATE_PAIR" then
    some .creation
  else if ty = "SWAP" ∨ ty = "EXCHANGE" then some .swap
  else if ty = "ADD_LIQUIDITY" ∨ ty = "JOIN_POOL" ∨
      ty = "PROVIDE_LIQUIDITY" then some .join
  else if ty = "REMOVE_LIQUIDITY" ∨ ty = "EXIT_POOL" ∨
      ty = "WITHDRAW_LIQUIDITY" then some .exit
  else none

/-- The per-transaction step of
`DataTransformer.transformTransactionsToEvents`: transactions without a
truthy `type`, and types outside the fixed table, are dropped; the switch
then adds the per-type payload on top of the base event. -/
def transformTxn (now : Nat) (tick : Option Tick) (txn : Txn) :
    Option Event :=
  match txn.type with
  | none => none
  | some ty =>
    if ty = "" then none
    else
      match mapEventType ty with
      | none => none
      | some et =>
        let base : Event :=
          { block := transformTickToBlock now tick
            txnId := jsOrStr txn.id txn.txId
            txnIndex := txn.index.getD 0
            eventIndex := txn.eventIndex.getD 0
            maker := (jsOrStr txn.sender
              (jsOrStr txn.fromAddr (some "unknown"))).getD "unknown"
            pairId := txn.pairId.getD "unknown"
            eventType := et
            asset0In := none, asset1Out := none, asset0Out := none
            asset1In := none, amount0 := none, amount1 := none
            reserves0 := none, reserves1 := none }
        match et with
        | .creation => some base
        | .swap => some { base with
            asset0In := txn.amount0In, asset1Out := txn.amount1Out
            asset0Out := txn.amount0Out, asset1In := txn.amount1In
            reserves0 := jsOrInt txn.reservesToken0 txn.reservesAsset0
            reserves1 := jsOrInt txn.reservesToken1 txn.reservesAsset1 }
        | .join => some { base with
            amount0 := txn.amount0, amount1 := txn.amount1
            reserves0 := jsOrInt txn.reservesToken0 txn.reservesAsset0
            reserves1 := jsOrInt txn.reservesToken1 txn.reservesAsset1 }
        | .exit => some { base with
            amount0 := txn.amount0, amount1 := txn.amount1
            reserves0 := jsOrInt txn.reservesToken0 txn.reservesAsset0
            reserves1 := jsOrInt txn.reservesToken1 txn.reservesAsset1 }

/-- Model of `DataTransformer.transformTransactionsToEvents`. -/
def transformTransactionsToEvents (now : Nat) (txns : List Txn)
    (tick : Option Tick) : List Event :=
  txns.filterMap (transformTxn now tick)

/-! ### Tick sorts used by the client -/

/-- Comparator `(a, b) => b.tickNumber - a.tickNumber` on normalized ticks. -/
def tickDescLe (a b : Tick) : Bool := descLe a.tickNumber b.tickNumber

/-- Comparator `(a, b) => a.tickNumber - b.tickNumber` on normalized ticks. -/
def tickAscLe (a b : Tick) : Bool := ascLe a.tickNumber b.tickNumber

/-- Comparator `(a, b) => (b.tickNumber || b.number) - (a.tickNumber || a.number)`
on raw ticks. -/
def rawDescLe (a b : RawTick) : Bool := descLe (rawTickNum a) (rawTickNum b)

/-- Comparator `(a, b) => b.timestamp - a.timestamp` on normalized ticks. -/
def tsDescLe (a b : Tick) : Bool := decide (b.timestamp ≤ a.timestamp)

/-! ### `getAllTicksFromEpoch`

The page loop runs until three consecutive empty pages, a short page, a
non-rate-limit error, or six accumulated rate-limit retries; `fuel` bounds
the number of iterations (finite in reality because epochs are finite).
The `maxTicks` parameter is omitted: the only call site relevant to the
claims (`getTickByTimestamp`) uses the default `Infinity`.  The epoch-data
and epoch-range cache writes are not threaded (deterministic oracle). -/

def getAllTicksFromEpochAux (u : Upstream) (epoch : Nat) :
    Nat → Nat → Nat → List Tick → List Tick
  | 0, _, _, acc => acc
  | fuel + 1, page, emptyCount, acc =>
    match u.epochTicks epoch page 500 with
    | .ok [] =>
      if 3 ≤ emptyCount + 1 then acc
      else getAllTicksFromEpochAux u epoch fuel (page + 1) (emptyCount + 1) acc
    | .missing =>
      if 3 ≤ emptyCount + 1 then acc
      else getAllTicksFromEpochAux u epoch fuel (page + 1) (emptyCount + 1) acc
    | .ok (t :: ts) =>
      let acc2 := acc ++ (t :: ts).map (normTick u.now)
      if (t :: ts).length < 500 then acc2
      else getAllTicksFromEpochAux u epoch fuel (page + 1) 0 acc2
    | .error rateLimited =>
      if rateLimited then
        if 6 ≤ emptyCount + 1 then acc
        else getAllTicksFromEpochAux u epoch fuel page (emptyCount + 1) acc
      else acc

def getAllTicksFromEpoch (u : Upstream) (epoch : Nat) : List Tick :=
  sortBy tickDescLe (getAllTicksFromEpochAux u epoch u.fuel 0 0 [])

/-! ### `getLatestTick` -/

/-- One page fetched, all ticks normalized; `.ok []`, a shapeless response
and a caught error all contribute nothing here. -/
def pageTicksNorm (u : Upstream) (e page size : Nat) : List Tick :=
  match u.epochTicks e page size with
  | .ok ticks => ticks.map (normTick u.now)
  | _ => []

/-- The `MAX_PAGES = 2` / `RECENT_TICKS_MAX = 200` recent-page loop of
`getLatestTick` (entered only when the estimated page did not contain the
safe tick): pages 0 and 1 with `pageSize 100`, stopping at 200 collected
ticks; a shapeless response or an error breaks the loop, an empty `ticks`
array does not. -/
def latestExtras (u : Upstream) (curE : Nat) (first : List Tick) :
    List Tick :=
  if 200 ≤ first.length then first
  else
    match u.epochTicks curE 0 100 with
    | .ok ticks =>
      let acc1 := first ++ (ticks.map (normTick u.now)).take (200 - first.length)
      if 200 ≤ acc1.length then acc1
      else
        match u.epochTicks curE 1 100 with
        | .ok ticks2 =>
          acc1 ++ (ticks2.map (normTick u.now)).take (200 - acc1.length)
        | _ => acc1
    | _ => first

/-- The unsorted `recentTicks` accumulated by `getLatestTick` for head
`H`: the estimated page `floor(safe / 100)` first, then (only when the
safe tick was not found there) the recent pages. -/
def latestRecentUnsorted (u : Upstream) (H : Nat) : List Tick :=
  let safe := H - 10
  let curE := getCurrentEpoch u
  let first := pageTicksNorm u curE (safe / 100) 100
  if first.any (fun t => t.tickNumber == some safe) then first
  else latestExtras u curE first

/-- The previous-epoch fallback of `getLatestTick` (reached when no
recent ticks at all were collected): the newest tick of page 0 of
`currentEpoch - 1`, or the basic-info object
`{ tickNumber: safe, timestamp: Date.now(), epoch: currentEpoch }`. -/
def latestPrevEpochFallback (u : Upstream) (H : Nat) : Tick :=
  match u.epochTicks (getCurrentEpoch u - 1) 0 100 with
  | .ok (r :: rs) => normTick u.now ((sortBy rawDescLe (r :: rs)).headD r)
  | _ => ⟨some (H - 10), none, u.now, some (getCurrentEpoch u)⟩

/-- The selection `getLatestTick` performs on the sorted recent ticks for
a usable head `H`: exact safe tick, else the newest tick `≤ safe`, else
the oldest recent tick, else the previous-epoch fallback. -/
def latestSafeTickData (u : Upstream) (H : Nat) : Tick :=
  match (sortBy tickDescLe (latestRecentUnsorted u H)).find?
      (fun t => t.tickNumber == some (H - 10)) with
  | some t => t
  | none =>
    match (sortBy tickDescLe (latestRecentUnsorted u H)).filter
        (fun t => jsLeNum t.tickNumber (H - 10)) with
    | t :: _ => t
    | [] =>
      match (sortBy tickDescLe (latestRecentUnsorted u H)).getLast? with
      | some t => t
      | none => latestPrevEpochFallback u H

/-- Model of `QubicRpcClient.getLatestTick`.  `Math.max(0, latest - SAFETY_BUFFER)`
(`LATEST_BLOCK_SAFETY_BUFFER = 10`) is truncated subtraction on naturals;
an unusable `/v1/latestTick` response yields the `{ tickNumber: 0 }`
placeholder. -/
def getLatestTick (u : Upstream) : Tick :=
  match u.latestTick with
  | some H =>
    if H ≠ 0 then latestSafeTickData u H else ⟨some 0, none, u.now, none⟩
  | none => ⟨some 0, none, u.now, none⟩

/-! ### `getRecentValidTicks` -/

/-- Model of `QubicRpcClient.getRecentValidTicks`: page 0 of the current epoch,
sorted most-recent-first, first `count` ticks; the previous epoch is tried
only when the current-epoch request throws. -/
def getRecentValidTicks (u : Upstream) (count : Nat) : List Tick :=
  let curE := getCurrentEpoch u
  let valid : List Tick :=
    match u.epochTicks curE 0 500 with
    | .ok [] => []
    | .ok (t :: ts) =>
      ((sortBy rawDescLe (t :: ts)).take count).map (normTick u.now)
    | .missing => []
    | .error _ =>
      if 0 < curE then
        match u.epochTicks (curE - 1) 0 500 with
        | .ok ticks2 =>
          ((sortBy rawDescLe ticks2).take count).map (normTick u.now)
        | _ => []
      else []
  sortBy tickDescLe valid

/-! ### `getTickByTimestamp` -/

/-- The epochs `getTickByTimestamp` visits: from the current epoch
downward, stopping after the fifth prior epoch or at epoch 0. -/
def epochScanList (c : Nat) : List Nat :=
  (List.range (min 6 (c + 1))).map (fun i => c - i)

/-- Per-epoch scan: ticks of the epoch sorted by timestamp descending,
first tick with timestamp ≤ the requested one.  (`tick.timestamp || 0` in
the source coincides with the normalized `Nat` timestamp.) -/
def tickByTimestampScan (u : Upstream) (ts : Nat) : List Nat → Option Tick
  | [] => none
  | e :: rest =>
    match (sortBy tsDescLe (getAllTicksFromEpoch u e)).find?
        (fun t => t.timestamp ≤ ts) with
    | some t => some t
    | none => tickByTimestampScan u ts rest

/-- Model of `QubicRpcClient.getTickByTimestamp`: scan, then fall back to
`getLatestTick` when no epoch in the window has a qualifying tick. -/
def getTickByTimestamp (u : Upstream) (ts : Nat) : Tick :=
  match tickByTimestampScan u ts (epochScanList (getCurrentEpoch u)) with
  | some t => t
  | none => getLatestTick u

/-! ### `getTransactionsForTick` -/

/-- Model of `QubicRpcClient.getTransactionsForTick`: cache hit, else fetch and
cache; a thrown request is caught, logged, and turned into `[]` with no
cache write.  The key is the possibly-absent tick number interpolated into
the request URL. -/
def getTransactionsForTick (u : Upstream) (σ : Cache) (k : Option Nat) :
    List Txn × Cache :=
  match σ.transactions k with
  | some l => (l, σ)
  | none =>
    match u.tickTransactions k with
    | some l => (l, σ.insertTxns k l)
    | none => ([], σ)

/-! ### `getTickByNumber` and the binary-search fallback -/

/-- Model of `Math.min(...nums)` / `Math.max(...nums)` over the page's
`tickNumber || number` values: `some (min, max)` when every value is
present, `none` when any is absent (the JS spread then yields NaN, making
every comparison against the bounds false). -/
def minMaxNums (ticks : List RawTick) : Option (Nat × Nat) :=
  let nums := ticks.map rawTickNum
  if nums.all (·.isSome) then
    match nums.reduceOption with
    | [] => none
    | v :: vs => some (vs.foldl min v, vs.foldl max v)
  else none

/-- Model of `Math.abs((t.tickNumber || t.number) - target)`; `none` is NaN. -/
def distTo (target : Nat) (t : RawTick) : Option Nat :=
  (rawTickNum t).map (fun v => max v target - min v target)

/-- Comparison `distance < bestMatchDistance` where the best distance starts at
`Infinity` (`none` here) and a NaN distance never wins. -/
def ltBest (d bd : Option Nat) : Bool :=
  match d with
  | none => false
  | some dv =>
    match bd with
    | none => true
    | some bdv => dv < bdv

/-- The best-match update loop of `findNearestTickWithBinarySearch`. -/
def updateBest (target : Nat) (ticks : List RawTick)
    (bb : Option RawTick × Option Nat) : Option RawTick × Option Nat :=
  ticks.foldl
    (fun st t =>
      if ltBest (distTo target t) st.2 then (some t, distTo target t)
      else st)
    bb

/-- The page loop of `findNearestTickWithBinarySearch` (`maxAttempts`
iterations, window `[lowPage, highPage]` over `Int` because the JS high
bound can reach `-1`).  In every reachable state `0 ≤ low ≤ high`, so the
requested page `mid.toNat` equals the JS page. -/
def findNearestAux (u : Upstream) (epoch target : Nat) :
    Nat → Int → Int → Option RawTick → Option Nat → Option Tick
  | 0, _, _, best, _ => best.map (normTick u.now)
  | attempts + 1, low, high, best, bestDist =>
    let mid := (low + high).fdiv 2
    match u.epochTicks epoch mid.toNat 500 with
    | .ok (t0 :: ts) =>
      match minMaxNums (t0 :: ts) with
      | some (mn, mx) =>
        if mn ≤ target ∧ target ≤ mx then
          match (t0 :: ts).find? (fun t => rawTickNum t == some target) with
          | some t => some (normTick u.now t)
          | none =>
            some (normTick u.now ((t0 :: ts).foldl
              (fun acc t =>
                if jsLtNum (distTo target t) (distTo target acc) then t
                else acc)
              t0))
        else
          let bb := updateBest target (t0 :: ts) (best, bestDist)
          let lh : Int × Int :=
            if target < mn then (low, mid - 1) else (mid + 1, high)
          if lh.2 < lh.1 then bb.1.map (normTick u.now)
          else findNearestAux u epoch target attempts lh.1 lh.2 bb.1 bb.2
      | none =>
        let bb := updateBest target (t0 :: ts) (best, bestDist)
        if high < mid + 1 then bb.1.map (normTick u.now)
        else findNearestAux u epoch target attempts (mid + 1) high bb.1 bb.2
    | .ok [] =>
      if mid - 1 < low then best.map (normTick u.now)
      else findNearestAux u epoch target attempts low (mid - 1) best bestDist
    | .missing =>
      if mid - 1 < low then best.map (normTick u.now)
      else findNearestAux u epoch target attempts low (mid - 1) best bestDist
    | .error _ =>
      let lh : Int × Int :=
        if (low + high) % 2 ≠ 0 then (mid + 1, high) else (low, mid - 1)
      if lh.2 < lh.1 then best.map (normTick u.now)
      else findNearestAux u epoch target attempts lh.1 lh.2 best bestDist

/-- Model of `QubicRpcClient.findNearestTickWithBinarySearch` with the default
`maxAttempts = 8`, starting window `[0, 1000]`, no best match yet. -/
def findNearestTickWithBinarySearch (u : Upstream) (epoch target : Nat) :
    Option Tick :=
  findNearestAux u epoch target 8 0 1000 none none

/-- The earlier/later-page walk of `getTickByNumber`: each page is fetched
and scanned for an exact match; response-shape problems and errors just
move on to the next page. -/
def searchPages (u : Upstream) (epoch n : Nat) : List Nat → Option Tick
  | [] => none
  | p :: rest =>
    match u.epochTicks epoch p 500 with
    | .ok ticks =>
      match ticks.find? (fun t => rawTickNum t == some n) with
      | some t => some (normTick u.now t)
      | none => searchPages u epoch n rest
    | _ => searchPages u epoch n rest

/-- Phase 1 of `getTickByNumber`: the estimated page of the current epoch,
then up to five earlier pages (`Math.max(0, est - off)` is truncated
subtraction) when the target is below the page's minimum, or five later
pages when above its maximum. -/
def searchEstimatedPage (u : Upstream) (curE est n : Nat) : Option Tick :=
  match u.epochTicks curE est 500 with
  | .ok ticks =>
    match ticks.find? (fun t => rawTickNum t == some n) with
    | some t => some (normTick u.now t)
    | none =>
      match ticks with
      | [] => none
      | _ :: _ =>
        match minMaxNums ticks with
        | some (mn, mx) =>
          if n < mn then
            searchPages u curE n ((List.range' 1 5).map (fun off => est - off))
          else if mx < n then
            searchPages u curE n ((List.range' 1 5).map (fun off => est + off))
          else none
        | none => none
  | _ => none

/-- Phase 2 of `getTickByNumber`: for epoch offsets 1 to 5 (skipping
negative epochs), fetch the same estimated page in the previous epoch,
look for an exact match, and otherwise run the binary search when the page
was nonempty. -/
def searchPrevEpochs (u : Upstream) (curE est n : Nat) :
    List Nat → Option Tick
  | [] => none
  | off :: rest =>
    if off ≤ curE then
      match u.epochTicks (curE - off) est 500 with
      | .ok ticks =>
        match ticks.find? (fun t => rawTickNum t == some n) with
        | some t => some (normTick u.now t)
        | none =>
          match ticks with
          | [] => searchPrevEpochs u curE est n rest
          | _ :: _ =>
            match findNearestTickWithBinarySearch u (curE - off) n with
            | some nt => some nt
            | none => searchPrevEpochs u curE est n rest
      | _ => searchPrevEpochs u curE est n rest
    else searchPrevEpochs u curE est n rest

/-- The cache-free search performed by `getTickByNumber` on a cache miss.
The source interleaves a cache write at every successful return point,
always keyed by the requested number `n` (also for a nearest match); that
write is factored into the wrapper below. -/
def searchTick (u : Upstream) (n : Nat) : Option Tick :=
  let est := n / 500
  let curE := getCurrentEpoch u
  match searchEstimatedPage u curE est n with
  | some t => some t
  | none => searchPrevEpochs u curE est n [1, 2, 3, 4, 5]

/-- The not-found placeholder `{ tickNumber, timestamp: Date.now() }`. -/
def placeholderTick (n now : Nat) : Tick := ⟨some n, none, now, none⟩

/-- Model of `QubicRpcClient.getTickByNumber`: cache hit, else search (caching the
result under the requested number), else the placeholder, which is NOT
cached.  The outer catch (which would add an `error` field) is unreachable
because every request inside is individually guarded. -/
def getTickByNumber (u : Upstream) (σ : Cache) (n : Nat) : Tick × Cache :=
  match σ.ticks n with
  | some t => (t, σ)
  | none =>
    match searchTick u n with
    | some t => (t, σ.insertTick n t)
    | none => (placeholderTick n u.now, σ)

/-! ### `getTicksInBlockRange` -/

/-- One page of the range scan: skipped once `actualMaxResults` ticks are
collected; otherwise the page's ticks are filtered to
`from ≤ (tickNumber || number) ≤ to` and appended (normalized, truncated
at the cap).  The per-tick cache writes are not threaded (they are never
read back within one collection). -/
def rangePageStep (u : Upstream) (a b maxR e : Nat) (acc : List Tick)
    (page : Nat) : List Tick :=
  if maxR ≤ acc.length then acc
  else
    match u.epochTicks e page 500 with
    | .ok (t0 :: ts) =>
      let inRange := (t0 :: ts).filter
        (fun t => jsGeNum (rawTickNum t) a && jsLeNum (rawTickNum t) b)
      acc ++ (inRange.take (maxR - acc.length)).map (normTick u.now)
    | _ => acc

/-- Model of `actualMaxResults = Math.min(maxResults, toBlock - fromBlock + 1)`
(`maxR = none` is the JS default `Infinity`). -/
def actualMaxResults (a b : Nat) (maxR : Option Nat) : Nat :=
  match maxR with
  | none => b - a + 1
  | some k => min k (b - a + 1)

/-- The page window scanned per epoch:
`[fromBlockPage, toBlockPage]` capped at `pagesToCheck = min(10, ...)`
pages. -/
def rangePages (a b : Nat) : List Nat :=
  List.range' (a / 500) (min 10 (b / 500 - a / 500 + 1))

/-- Phases 1 and 2 of `getTicksInBlockRange`: the page window first in the
current epoch, then in up to five previous epochs (skipping negative
ones), accumulating `validTicks`. -/
def rangeOffStep (u : Upstream) (a b maxN curE : Nat) (pages : List Nat)
    (acc : List Tick) (off : Nat) : List Tick :=
  if off ≤ curE then
    pages.foldl (rangePageStep u a b maxN (curE - off)) acc
  else acc

def rangeScanTicks (u : Upstream) (a b : Nat) (maxR : Option Nat) :
    List Tick :=
  [1, 2, 3, 4, 5].foldl
    (rangeOffStep u a b (actualMaxResults a b maxR) (getCurrentEpoch u)
      (rangePages a b))
    ((rangePages a b).foldl
      (rangePageStep u a b (actualMaxResults a b maxR) (getCurrentEpoch u))
      [])

/-- Model of `QubicRpcClient.getTicksInBlockRange`.  The branches flatten the
source's `validTicks` variable: when the page scan finds nothing and the
range size is at most 1000, the middle-block fallback consults
`getTickByNumber`, whose result is always a tick object without an
`error` field (see `getTickByNumber`) and is therefore always pushed, so
the final empty-check only fires for larger ranges. -/
def getTicksInBlockRange (u : Upstream) (σ : Cache) (a b : Nat)
    (maxR : Option Nat) : List Tick :=
  if rangeScanTicks u a b maxR = [] ∧ b - a + 1 ≤ 1000 then
    sortBy tickAscLe [(getTickByNumber u σ ((a + b) / 2)).1]
  else if rangeScanTicks u a b maxR = [] then []
  else sortBy tickAscLe (rangeScanTicks u a b maxR)

/-! ### The events controller (`EventsController.getEvents`)

The query-string layer (presence, integer and sign checks) is outside the
engine; `a` and `b` below are the parsed `fromBlock`/`toBlock`.  The
per-tick transaction-cache writes are not threaded across loop iterations:
for a deterministic oracle a repeated tick yields the identical list
whether it is answered from the cache or refetched. -/

inductive EventsResult where
  | invalidParams
  | events (list : List Event)
deriving Repr, DecidableEq

/-- The events extracted from one collected tick: its transaction list,
then `transformTransactionsToEvents` when that list is nonempty. -/
def tickEvents (u : Upstream) (σ : Cache) (tick : Tick) : List Event :=
  let txns := (getTransactionsForTick u σ tick.tickNumber).1
  if txns.isEmpty then []
  else transformTransactionsToEvents u.now txns (some tick)

/-- Model of `allEvents` before the final sort: the concatenation of the per-tick
event lists in collected-tick order. -/
def collectedEvents (u : Upstream) (σ : Cache) (a b : Nat) : List Event :=
  ((getTicksInBlockRange u σ a b none).map (tickEvents u σ)).flatten

/-- The final sort's comparator: block number, then event index. -/
def eventLe (x y : Event) : Bool :=
  decide (x.block.blockNumber < y.block.blockNumber) ||
    (decide (x.block.blockNumber = y.block.blockNumber) &&
      decide (x.eventIndex ≤ y.eventIndex))

def eventsOut (u : Upstream) (σ : Cache) (a b : Nat) : List Event :=
  sortBy eventLe (collectedEvents u σ a b)

def getEvents (u : Upstream) (σ : Cache) (a b : Nat) : EventsResult :=
  if b < a then .invalidParams
  else if 100000 < b - a + 1 then .invalidParams
  else if (getTicksInBlockRange u σ a b none).isEmpty then .events []
  else .events (eventsOut u σ a b)

/-! ### The block controller (`BlockController.getLatestBlock`)

The variant that probes
`GET /v2/ticks/{n}/transactions?page=0&pageSize=1` directly.  A tick
object is always truthy, so the guard
`!latestValidTick || !latestValidTick.tickNumber` reduces to the
truthiness of its `tickNumber`. -/

inductive BlockResult where
  | serverError
  | block (b : Block)
deriving Repr, DecidableEq

def getLatestBlock (u : Upstream) : BlockResult :=
  let t := getLatestTick u
  if jsTruthyNum t.tickNumber then
    if u.probeTransactions t.tickNumber then
      .block (transformTickToBlock u.now (some t))
    else
      match (getRecentValidTicks u 5).find?
          (fun s => u.probeTransactions s.tickNumber) with
      | some s => .block (transformTickToBlock u.now (some s))
      | none => .serverError
  else .serverError

/-! ### Concrete upstream scenarios used by the claim theorems -/

/-- A wholly unproductive upstream: every epoch page is an empty success,
every transaction request throws, every probe fails. -/
def uEmpty : Upstream :=
  ⟨none, some 3, fun _ _ _ => .ok [], fun _ => none, fun _ => false, 777, 5⟩

def raw95 : RawTick := ⟨some 95, none, some 95000, some 7⟩

def raw90 : RawTick := ⟨some 90, none, some 90000, some 7⟩

def raw100 : RawTick := ⟨some 100, none, some 5000, some 7⟩

/-- Head 100 (safe tick 90), but the only tick the current epoch exposes
is 95: `getLatestTick` falls back to the oldest recent tick, 95 > 90. -/
def uLag : Upstream :=
  { latestTick := some 100
    status := some 7
    epochTicks := fun e p s =>
      if e = 7 ∧ p = 0 ∧ s = 100 then .ok [raw95] else .ok []
    tickTransactions := fun _ => none
    probeTransactions := fun _ => false
    now := 1000
    fuel := 5 }

/-- Head 100, exact safe tick 90 available on the estimated page. -/
def uSafeW : Upstream :=
  { latestTick := some 100
    status := some 7
    epochTicks := fun e p s =>
      if e = 7 ∧ p = 0 ∧ s = 100 then .ok [raw90] else .ok []
    tickTransactions := fun _ => none
    probeTransactions := fun _ => false
    now := 1000
    fuel := 5 }

/-- Head 100: `getLatestTick` resolves the exact safe tick 90, but its
transaction probe fails, and the recent-valid-ticks list contains the head
tick 100 itself, whose probe succeeds. -/
def uProbe : Upstream :=
  { latestTick := some 100
    status := some 7
    epochTicks := fun e p s =>
      if e = 7 ∧ p = 0 ∧ s = 100 then .ok [raw90, raw100]
      else if e = 7 ∧ p = 0 ∧ s = 500 then .ok [raw100, raw90]
      else .ok []
    tickTransactions := fun _ => none
    probeTransactions := fun k => k == some 100
    now := 1000
    fuel := 5 }

def txnSwapA : Txn :=
  { Txn.mk0 with
    type := some "SWAP", id := some "t1", index := some 0
    eventIndex := some 0, sender := some "alice", pairId := some "p1" }

def raw900 : RawTick := ⟨some 900, none, some 900000, some 9⟩

/-- No tick anywhere in the requested range `[1000, 1005]`, but the
previous epoch's estimated page is nonempty, which triggers the binary
search, whose best match is tick 900 — outside the range. -/
def uMid : Upstream :=
  { latestTick := none
    status := some 10
    epochTicks := fun e p s =>
      if e = 9 ∧ p = 2 ∧ s = 500 then .ok [raw900]
      else if e = 9 ∧ p = 500 ∧ s = 500 then .ok [raw900]
      else .ok []
    tickTransactions := fun k => if k = some 900 then some [txnSwapA] else none
    probeTransactions := fun _ => false
    now := 1000
    fuel := 5 }

/-- The event extracted from tick 900 in `uMid`. -/
def ev900 : Event :=
  ⟨⟨900, 900⟩, some "t1", 0, 0, "alice", "p1", .swap,
   none, none, none, none, none, none, none, none⟩

def txnSwapB : Txn :=
  { Txn.mk0 with
    type := some "SWAP", id := some "t2", index := some 0
    eventIndex := some 0, sender := some "bob", pairId := some "p2" }

def raw1000 : RawTick := ⟨some 1000, none, some 1000000, some 20⟩

/-- Tick 1000 appears both on the current epoch's page and on the
previous epoch's page: the range collector collects it twice. -/
def uDup : Upstream :=
  { latestTick := none
    status := some 20
    epochTicks := fun e p s =>
      if (e = 20 ∨ e = 19) ∧ p = 2 ∧ s = 500 then .ok [raw1000] else .ok []
    tickTransactions := fun k => if k = some 1000 then some [txnSwapB] else none
    probeTransactions := fun _ => false
    now := 1000
    fuel := 5 }

/-- Tick 1000 only on the current epoch's page (no duplication). -/
def uOne : Upstream :=
  { latestTick := none
    status := some 20
    epochTicks := fun e p s =>
      if e = 20 ∧ p = 2 ∧ s = 500 then .ok [raw1000] else .ok []
    tickTransactions := fun k => if k = some 1000 then some [txnSwapB] else none
    probeTransactions := fun _ => false
    now := 1000
    fuel := 5 }

/-- The event extracted from tick 1000 in `uDup` / `uOne`. -/
def ev1000 : Event :=
  ⟨⟨1000, 1000⟩, some "t2", 0, 0, "bob", "p2", .swap,
   none, none, none, none, none, none, none, none⟩

def rawZero : RawTick := ⟨some 0, some 5, some 1234, some 2⟩

/-! ## C10 — `normalizeTickData` and tick number 0 -/

/-- C10 counterexample: for a raw tick with `tickNumber: 0` and
`number: 5`, the normalized record's `tickNumber` is `0` — the trailing
spread re-applies the raw field — not `5` as the claimed
`t.tickNumber || t.number` computation would give. -/
theorem normalizeSpreadCounter :
    normalizeTickData 999 (some rawZero) =
      some ⟨some 0, some 5, 1234, some 2⟩ ∧
    jsOr rawZero.tickNumber rawZero.number = some 5 ∧
    (some 0 : Option Nat) ≠ some 5 := by decide

/-- C10 amended: `normalizeTickData` is `null` exactly on `null` input;
otherwise the `tickNumber` field equals the raw `tickNumber` whenever that
key is present (including when it is `0`, which is preserved), and falls
back to the raw `number` field only when the raw `tickNumber` is absent. -/
theorem normalizeSpreadAmended (now : Nat) (raw : RawTick) :
    normalizeTickData now none = none ∧
    normalizeTickData now (some raw) = some (normTick now raw) ∧
    (∀ v, raw.tickNumber = some v → (normTick now raw).tickNumber = some v) ∧
    (raw.tickNumber = none → (normTick now raw).tickNumber = raw.number) := by
  refine ⟨rfl, rfl, ?_, ?_⟩
  · intro v hv
    simp [normTick, hv]
  · intro hv
    simp [normTick, hv, jsOr]

theorem normalizeSpreadWitness : (normTick 999 rawZero).tickNumber = some 0 :=
  (normalizeSpreadAmended 999 rawZero).2.2.1 0 rfl

/-! ## C7 — `getTransactionsForTick` on upstream failure -/

/-- C7 counterexample: the upstream request for tick 7 throws, yet
`getTransactionsForTick` succeeds with the empty list (and writes
nothing to the cache) instead of failing with `Unavailable`. -/
theorem txnsFailureCounter :
    uEmpty.tickTransactions (some 7) = none ∧
    getTransactionsForTick uEmpty emptyCache (some 7) = ([], emptyCache) :=
  ⟨rfl, rfl⟩

/-- C7 amended: `getTransactionsForTick` never fails; on a cache miss it
returns the upstream list and caches it, and when the upstream call throws
it returns the empty list with the cache unchanged — the failure is
converted into an empty successful result, indistinguishable from a tick
with no transactions. -/
theorem txnsFailureAmended (u : Upstream) (σ : Cache) (k : Option Nat)
    (hmiss : σ.transactions k = none) :
    (u.tickTransactions k = none →
      getTransactionsForTick u σ k = ([], σ)) ∧
    (∀ l, u.tickTransactions k = some l →
      getTransactionsForTick u σ k = (l, σ.insertTxns k l)) := by
  constructor
  · intro hu
    unfold getTransactionsForTick
    rw [hmiss, hu]
  · intro l hu
    unfold getTransactionsForTick
    rw [hmiss, hu]

theorem txnsFailureWitness :
    getTransactionsForTick uEmpty emptyCache (some 7) = ([], emptyCache) :=
  (txnsFailureAmended uEmpty emptyCache (some 7) rfl).1 rfl

/-! ## C9 — idempotence of `getTickByNumber` and its cache -/

/-- C9 counterexample: on the placeholder path nothing is written to the
cache, so the second call does not hit a cache entry written by the
first. -/
theorem tickCachePlaceholderCounter :
    (getTickByNumber uEmpty emptyCache 5).1 = placeholderTick 5 777 ∧
    ((getTickByNumber uEmpty emptyCache 5).2).ticks 5 = none := by
  refine ⟨?_, ?_⟩ <;> rfl

/-- C9 amended: two successive calls return identical records and leave
the cache identical — via the cache entry written by the first call on the
exact- and nearest-match paths, and by re-running the same deterministic
search on the placeholder path (where nothing is cached and the timestamp
is recomputed from the clock). -/
theorem tickByNumberIdem (u : Upstream) (σ : Cache) (n : Nat) :
    getTickByNumber u ((getTickByNumber u σ n).2) n =
      getTickByNumber u σ n := by
  unfold getTickByNumber
  cases h : σ.ticks n with
  | some t => simp [h]
  | none =>
    cases hs : searchTick u n with
    | some t => simp [h, hs, Cache.insertTick]
    | none => simp [h, hs]

/-! ## C1 — the safety buffer bound of `getLatestTick` -/

/-- C1 counterexample: head 100 (safe tick 90), but every recent tick is
newer than 90, so the oldest-recent-tick fallback returns tick 95, which
exceeds `head - SAFETY_BUFFER = 90`. -/
theorem latestTickBufferCounter :
    uLag.latestTick = some 100 ∧
    (getLatestTick uLag).tickNumber = some 95 ∧
    ¬ ((95 : Nat) ≤ 100 - 10) := by decide

/-- C1 amended: when the recent-tick collection contains at least one tick
with number ≤ head − SAFETY_BUFFER, the returned tick number is bounded by
head − SAFETY_BUFFER (exact-match and nearest-older paths, and the
basic-info fallback); the oldest-recent-tick, previous-epoch and
recent-valid-ticks fallbacks carry no such bound. -/
theorem latestTickBufferAmended (u : Upstream) (H : Nat)
    (h1 : u.latestTick = some H) (h2 : H ≠ 0)
    (h3 : ∃ t ∈ latestRecentUnsorted u H,
      jsLeNum t.tickNumber (H - 10) = true) :
    ∃ w, (getLatestTick u).tickNumber = some w ∧ w ≤ H - 10 := by
  have hmain : ∃ w, (latestSafeTickData u H).tickNumber = some w ∧
      w ≤ H - 10 := by
    unfold latestSafeTickData
    cases hfind : (sortBy tickDescLe (latestRecentUnsorted u H)).find?
        (fun t => t.tickNumber == some (H - 10)) with
    | some t =>
      have hpred := List.find?_some hfind
      refine ⟨H - 10, ?_, le_refl _⟩
      simpa using hpred
    | none =>
      obtain ⟨t, htmem, htle⟩ := h3
      have htmem2 : t ∈ sortBy tickDescLe (latestRecentUnsorted u H) :=
        ((sortBy_perm tickDescLe _).mem_iff).mpr htmem
      have htf : t ∈ (sortBy tickDescLe (latestRecentUnsorted u H)).filter
          (fun t2 => jsLeNum t2.tickNumber (H - 10)) :=
        List.mem_filter.mpr ⟨htmem2, htle⟩
      cases hflt : (sortBy tickDescLe (latestRecentUnsorted u H)).filter
          (fun t2 => jsLeNum t2.tickNumber (H - 10)) with
      | nil => rw [hflt] at htf; cases htf
      | cons hd tl =>
        have hhd : hd ∈ (sortBy tickDescLe (latestRecentUnsorted u H)).filter
            (fun t2 => jsLeNum t2.tickNumber (H - 10)) := by
          rw [hflt]; exact List.mem_cons_self hd tl
        have hle := (List.mem_filter.mp hhd).2
        cases hnum : hd.tickNumber with
        | none => rw [hnum] at hle; simp [jsLeNum] at hle
        | some w =>
          rw [hnum] at hle
          simp only [jsLeNum, decide_eq_true_eq] at hle
          -- the `cases` on `hd.tickNumber` already rewrote the goal
          exact ⟨w, rfl, hle⟩
  simp only [getLatestTick, h1]
  rw [if_pos h2]
  exact hmain

theorem latestTickBufferWitness :
    ∃ w, (getLatestTick uSafeW).tickNumber = some w ∧ w ≤ 100 - 10 :=
  latestTickBufferAmended uSafeW 100 rfl (by decide) (by decide)

/-! ## C3 — the latest-block probe-and-fallback contract -/

/-- C3 counterexample: the candidate safe tick's probe fails, and the
fallback returns tick 100 — the head itself — whose probe succeeds: the
fallback candidates are not guaranteed to be strictly older than the
head. -/
theorem latestBlockHeadCounter :
    uProbe.latestTick = some 100 ∧
    getLatestBlock uProbe = .block (Block.mk 100 5) ∧
    ¬ ((100 : Nat) < 100) := by decide

/-- C3 amended: a successful `/latest-block` response always comes from a
tick whose transaction probe succeeded — either the `getLatestTick`
candidate itself, or (when the candidate's probe fails) the first
probe-succeeding member of the most-recent-first `getRecentValidTicks`
list; and when the candidate's probe fails and no fallback candidate's
probe succeeds, the handler returns the error response.  The fallback
candidates are not guaranteed to be strictly older than the head. -/
theorem latestBlockProbeAmended (u : Upstream) :
    (∀ bk, getLatestBlock u = .block bk →
      (u.probeTransactions (getLatestTick u).tickNumber = true ∧
        bk = transformTickToBlock u.now (some (getLatestTick u))) ∨
      (u.probeTransactions (getLatestTick u).tickNumber = false ∧
        ∃ s, (getRecentValidTicks u 5).find?
            (fun sx => u.probeTransactions sx.tickNumber) = some s ∧
          bk = transformTickToBlock u.now (some s))) ∧
    (jsTruthyNum (getLatestTick u).tickNumber = true →
      u.probeTransactions (getLatestTick u).tickNumber = false →
      (∀ s ∈ getRecentValidTicks u 5,
        u.probeTransactions s.tickNumber = false) →
      getLatestBlock u = .serverError) := by
  constructor
  · intro bk h
    unfold getLatestBlock at h
    by_cases h1 : jsTruthyNum (getLatestTick u).tickNumber = true
    · rw [if_pos h1] at h
      by_cases h2 : u.probeTransactions (getLatestTick u).tickNumber = true
      · rw [if_pos h2] at h
        injection h with h3
        exact Or.inl ⟨h2, h3.symm⟩
      · rw [if_neg h2] at h
        cases hf : (getRecentValidTicks u 5).find?
            (fun sx => u.probeTransactions sx.tickNumber) with
        | some s =>
          rw [hf] at h
          injection h with h3
          exact Or.inr ⟨Bool.not_eq_true _ ▸ h2, s, rfl, h3.symm⟩
        | none =>
          rw [hf] at h
          exact absurd h (by simp)
    · rw [if_neg h1] at h
      exact absurd h (by simp)
  · intro ht hp hall
    unfold getLatestBlock
    rw [if_pos ht, if_neg (by simp [hp])]
    have hnone : (getRecentValidTicks u 5).find?
        (fun sx => u.probeTransactions sx.tickNumber) = none :=
      List.find?_eq_none.mpr (fun x hx => by simp [hall x hx])
    rw [hnone]

theorem latestBlockProbeWitness :
    (uProbe.probeTransactions (getLatestTick uProbe).tickNumber = true ∧
      Block.mk 100 5 = transformTickToBlock uProbe.now
        (some (getLatestTick uProbe))) ∨
    (uProbe.probeTransactions (getLatestTick uProbe).tickNumber = false ∧
      ∃ s, (getRecentValidTicks uProbe 5).find?
          (fun sx => uProbe.probeTransactions sx.tickNumber) = some s ∧
        Block.mk 100 5 = transformTickToBlock uProbe.now (some s)) :=
  (latestBlockProbeAmended uProbe).1 (Block.mk 100 5) (by decide)

/-! ## C5 — ordering and stability of the event sort -/

theorem eventLe_trans (a b c : Event) (h1 : eventLe a b = true)
    (h2 : eventLe b c = true) : eventLe a c = true := by
  simp only [eventLe, Bool.or_eq_true, Bool.and_eq_true,
    decide_eq_true_eq] at h1 h2 ⊢
  omega

theorem eventLe_total (a b : Event) :
    eventLe a b = true ∨ eventLe b a = true := by
  simp only [eventLe, Bool.or_eq_true, Bool.and_eq_true, decide_eq_true_eq]
  omega

theorem eventLe_of_key_eq (k : Nat × Nat) (z w : Event)
    (hz : ((z.block.blockNumber, z.eventIndex) == k) = true)
    (hw : ((w.block.blockNumber, w.eventIndex) == k) = true) :
    eventLe z w = true := by
  have hz2 : (z.block.blockNumber, z.eventIndex) = k := by
    exact beq_iff_eq.mp hz
  have hw2 : (w.block.blockNumber, w.eventIndex) = k := by
    exact beq_iff_eq.mp hw
  have hzw : (z.block.blockNumber, z.eventIndex) =
      (w.block.blockNumber, w.eventIndex) := by rw [hz2, hw2]
  have h3 : z.block.blockNumber = w.block.blockNumber ∧
      z.eventIndex = w.eventIndex :=
    ⟨congrArg Prod.fst hzw, congrArg Prod.snd hzw⟩
  simp only [eventLe, Bool.or_eq_true, Bool.and_eq_true, decide_eq_true_eq]
  omega

/-- C5: the events handler's output is sorted by
`(blockNumber, eventIndex)` — every adjacent pair is ordered — events with
equal keys keep their relative input order (the concatenation order of
`collectedEvents`), and every non-error response is exactly the sorted
`eventsOut`. -/
theorem eventsSortedStable (u : Upstream) (σ : Cache) (a b : Nat) :
    (eventsOut u σ a b).Chain' (fun e1 e2 => eventLe e1 e2 = true) ∧
    (∀ k : Nat × Nat,
      (eventsOut u σ a b).filter
          (fun e => (e.block.blockNumber, e.eventIndex) == k) =
        (collectedEvents u σ a b).filter
          (fun e => (e.block.blockNumber, e.eventIndex) == k)) ∧
    (getEvents u σ a b = .invalidParams ∨
      getEvents u σ a b = .events (eventsOut u σ a b)) := by
  refine ⟨?_, ?_, ?_⟩
  · exact (sortBy_pairwise eventLe eventLe_trans eventLe_total _).chain'
  · intro k
    exact filter_sortBy eventLe _ eventLe_trans eventLe_total
      (fun z w hz hw => eventLe_of_key_eq k z w hz hw) _
  · unfold getEvents
    by_cases hba : b < a
    · rw [if_pos hba]; exact Or.inl rfl
    · rw [if_neg hba]
      by_cases hbig : 100000 < b - a + 1
      · rw [if_pos hbig]; exact Or.inl rfl
      · rw [if_neg hbig]
        by_cases hemp : (getTicksInBlockRange u σ a b none).isEmpty = true
        · rw [if_pos hemp]
          have hnil : getTicksInBlockRange u σ a b none = [] :=
            List.isEmpty_iff.mp hemp
          have hcol : collectedEvents u σ a b = [] := by
            unfold collectedEvents
            rw [hnil]
            rfl
          right
          unfold eventsOut
          rw [hcol]
          rfl
        · rw [if_neg hemp]; exact Or.inr rfl

/-! ## C2 — range membership of produced events -/

theorem transformTxn_block (now : Nat) (tick : Option Tick) (txn : Txn)
    (e : Event) (h : transformTxn now tick txn = some e) :
    e.block = transformTickToBlock now tick := by
  unfold transformTxn at h
  split at h
  · cases h
  · split at h
    · cases h
    · split at h
      · cases h
      · split at h <;> (apply Option.some.inj at h; rw [← h])

theorem mem_tickEvents_block (u : Upstream) (σ : Cache) (t : Tick)
    (e : Event) (he : e ∈ tickEvents u σ t) :
    e.block = transformTickToBlock u.now (some t) := by
  unfold tickEvents at he
  by_cases hnil : ((getTransactionsForTick u σ t.tickNumber).1).isEmpty = true
  · rw [if_pos hnil] at he; cases he
  · rw [if_neg hnil] at he
    unfold transformTransactionsToEvents at he
    rcases List.mem_filterMap.mp he with ⟨txn, _, htr⟩
    exact transformTxn_block u.now (some t) txn e htr

/-- The filter value `tick.tickNumber || tick.number` of a raw tick in
range determines the block number of every event later built from its
normalized record. -/
theorem blockNumber_of_rawTickNum (now : Nat) (raw : RawTick) (v : Nat)
    (h : rawTickNum raw = some v) :
    (transformTickToBlock now (some (normTick now raw))).blockNumber = v := by
  rcases raw with ⟨tn, num, tsp, ep⟩
  simp only [rawTickNum] at h
  simp only [transformTickToBlock, normTick]
  cases tn with
  | none =>
    simp only [jsOr] at h
    subst h
    simp only [Option.or]
    by_cases hv : v = 0
    · subst hv; simp [jsOr]
    · simp [jsOr, hv]
  | some x =>
    by_cases hx : x = 0
    · subst hx
      simp only [jsOr, ne_eq, not_true_eq_false, if_false] at h
      subst h
      simp only [Option.or]
      by_cases hv : v = 0
      · subst hv; simp [jsOr]
      · simp [jsOr, hv]
    · simp only [jsOr, ne_eq, hx, not_false_eq_true, if_true] at h
      apply Option.some.inj at h
      subst h
      simp [Option.or, jsOr, hx]

theorem mem_rangePageStep (u : Upstream) (a b maxR e : Nat)
    (acc : List Tick) (page : Nat) (t : Tick)
    (ht : t ∈ rangePageStep u a b maxR e acc page) :
    t ∈ acc ∨ ∃ raw v, t = normTick u.now raw ∧ rawTickNum raw = some v ∧
      a ≤ v ∧ v ≤ b := by
  unfold rangePageStep at ht
  by_cases hfull : maxR ≤ acc.length
  · rw [if_pos hfull] at ht; exact Or.inl ht
  · rw [if_neg hfull] at ht
    rcases hresp : u.epochTicks e page 500 with r | _ | ticks
    · simp only [hresp] at ht; exact Or.inl ht
    · simp only [hresp] at ht; exact Or.inl ht
    · cases ticks with
      | nil => simp only [hresp] at ht; exact Or.inl ht
      | cons t0 ts =>
        simp only [hresp] at ht
        rcases List.mem_append.mp ht with hacc | hnew
        · exact Or.inl hacc
        · right
          rcases List.mem_map.mp hnew with ⟨raw, hrawmem, hrweq⟩
          have hrfilter := List.mem_of_mem_take hrawmem
          have hpred := (List.mem_filter.mp hrfilter).2
          rw [Bool.and_eq_true] at hpred
          cases hnum : rawTickNum raw with
          | none => rw [hnum] at hpred; simp [jsGeNum] at hpred
          | some v =>
            rw [hnum] at hpred
            simp only [jsGeNum, jsLeNum, decide_eq_true_eq] at hpred
            exact ⟨raw, v, hrweq.symm, hnum, hpred.1, hpred.2⟩

theorem mem_foldl_rangePageStep (u : Upstream) (a b maxR e : Nat)
    (pages : List Nat) :
    ∀ (acc : List Tick) (t : Tick),
      t ∈ pages.foldl (rangePageStep u a b maxR e) acc →
      t ∈ acc ∨ ∃ raw v, t = normTick u.now raw ∧ rawTickNum raw = some v ∧
        a ≤ v ∧ v ≤ b := by
  induction pages with
  | nil => intro acc t ht; exact Or.inl ht
  | cons p ps ih =>
    intro acc t ht
    rcases ih _ t ht with hacc | hnew
    · exact mem_rangePageStep u a b maxR e acc p t hacc
    · exact Or.inr hnew

theorem mem_rangeOffsets (u : Upstream) (a b maxN curE : Nat)
    (pages : List Nat) :
    ∀ (offs : List Nat) (acc : List Tick) (t : Tick),
      t ∈ offs.foldl (rangeOffStep u a b maxN curE pages) acc →
      t ∈ acc ∨ ∃ raw v, t = normTick u.now raw ∧ rawTickNum raw = some v ∧
        a ≤ v ∧ v ≤ b := by
  intro offs
  induction offs with
  | nil => intro acc t ht; exact Or.inl ht
  | cons off offs2 ih =>
    intro acc t ht
    rcases ih _ t ht with hin | hnew
    · unfold rangeOffStep at hin
      by_cases hoff : off ≤ curE
      · rw [if_pos hoff] at hin
        exact mem_foldl_rangePageStep u a b maxN (curE - off) pages acc t hin
      · rw [if_neg hoff] at hin; exact Or.inl hin
    · exact Or.inr hnew

/-- Every tick collected by the page scan is the normalization of a raw
tick whose filter value lies in `[a, b]`. -/
theorem mem_rangeScanTicks (u : Upstream) (a b : Nat) (maxR : Option Nat)
    (t : Tick) (ht : t ∈ rangeScanTicks u a b maxR) :
    ∃ raw v, t = normTick u.now raw ∧ rawTickNum raw = some v ∧
      a ≤ v ∧ v ≤ b := by
  unfold rangeScanTicks at ht
  rcases mem_rangeOffsets u a b (actualMaxResults a b maxR)
      (getCurrentEpoch u) (rangePages a b) [1, 2, 3, 4, 5] _ t ht with
    hacc | hnew
  · rcases mem_foldl_rangePageStep u a b (actualMaxResults a b maxR)
        (getCurrentEpoch u) (rangePages a b) [] t hacc with h0 | hnew2
    · cases h0
    · exact hnew2
  · exact hnew

/-- C2 amended: when the page scan locates at least one tick in the
range, every produced event's block number lies in `[a, b]`; only the
middle-block fallback (taken when the scan finds nothing) can introduce a
nearest tick outside the range. -/
theorem eventsRangeAmended (u : Upstream) (σ : Cache) (a b : Nat)
    (h : rangeScanTicks u a b none ≠ []) :
    ∀ e ∈ eventsOut u σ a b,
      a ≤ e.block.blockNumber ∧ e.block.blockNumber ≤ b := by
  intro e he
  have he2 : e ∈ collectedEvents u σ a b :=
    ((sortBy_perm eventLe _).mem_iff).mp he
  unfold collectedEvents at he2
  rcases List.mem_flatten.mp he2 with ⟨l, hl, hel⟩
  rcases List.mem_map.mp hl with ⟨t, htmem, hteq⟩
  subst hteq
  have hticks : t ∈ rangeScanTicks u a b none := by
    unfold getTicksInBlockRange at htmem
    rw [if_neg (fun hc => h hc.1), if_neg h] at htmem
    exact ((sortBy_perm tickAscLe _).mem_iff).mp htmem
  obtain ⟨raw, v, hteq, hnum, hav, hvb⟩ :=
    mem_rangeScanTicks u a b none t hticks
  subst hteq
  have hblock := mem_tickEvents_block u σ _ e hel
  rw [hblock, blockNumber_of_rawTickNum u.now raw v hnum]
  exact ⟨hav, hvb⟩

/-- C2 counterexample: for the range `[1000, 1005]` the scan finds
nothing, and the middle-block fallback resolves tick 1002 to the nearest
tick 900 via the binary search — the handler then emits an event with
block number 900, outside the requested range. -/
theorem eventsRangeCounter :
    getEvents uMid emptyCache 1000 1005 = .events [ev900] ∧
    ev900.block.blockNumber = 900 ∧
    ¬ (1000 ≤ ev900.block.blockNumber) := by decide

theorem eventsRangeWitness :
    1000 ≤ ev1000.block.blockNumber ∧ ev1000.block.blockNumber ≤ 1001 :=
  eventsRangeAmended uOne emptyCache 1000 1001 (by decide) ev1000 (by decide)

/-! ## C6 — behaviour when no tick lies in the requested range -/

/-- C6 counterexample: no upstream tick lies in `[1000, 1005]` (the range
scan is empty), yet the collector substitutes the nearest tick 900 — a
tick outside the requested range — instead of returning the empty list. -/
theorem emptyRangeCounter :
    rangeScanTicks uMid 1000 1005 none = [] ∧
    getTicksInBlockRange uMid emptyCache 1000 1005 none =
      [⟨some 900, none, 900000, some 9⟩] ∧
    (900 : Nat) < 1000 := by decide

/-- C6 amended: the collector returns the empty list (and the handler an
empty event sequence) when the page scan finds no tick in range AND the
range size exceeds 1000; for smaller ranges the middle-block fallback
always supplies a tick (a nearest match, possibly outside the range, or an
unverified placeholder). -/
theorem emptyRangeAmended (u : Upstream) (σ : Cache) (a b : Nat)
    (hab : a ≤ b) (hmax : b - a + 1 ≤ 100000) (hbig : 1000 < b - a + 1)
    (h : rangeScanTicks u a b none = []) :
    getTicksInBlockRange u σ a b none = [] ∧
    getEvents u σ a b = .events [] := by
  have h1 : getTicksInBlockRange u σ a b none = [] := by
    unfold getTicksInBlockRange
    rw [if_neg (fun hc => absurd hc.2 (by omega)), if_pos h]
  refine ⟨h1, ?_⟩
  unfold getEvents
  rw [if_neg (by omega), if_neg (by omega), if_pos (by rw [h1]; rfl)]

theorem emptyRangeWitness :
    getTicksInBlockRange uEmpty emptyCache 0 2000 none = [] ∧
    getEvents uEmpty emptyCache 0 2000 = .events [] :=
  emptyRangeAmended uEmpty emptyCache 0 2000 (by decide) (by decide)
    (by decide) (by decide)

/-! ## C4 — duplicate ordering keys -/

/-- C4 counterexample: tick 1000 is collected once from the current epoch
and once from the previous epoch — there is no deduplication — so the
handler returns two events with the identical ordering key `(1000, 0)`. -/
theorem eventsDedupCounter :
    getEvents uDup emptyCache 1000 1001 = .events [ev1000, ev1000] ∧
    ¬ (((eventsOut uDup emptyCache 1000 1001).map
        (fun e => (e.block.blockNumber, e.eventIndex))).Nodup) := by decide

/-- C4 amended: the range collector performs no deduplication, so the
ordering keys are pairwise distinct only under the assumption that the
collected ticks map to pairwise-distinct block numbers and each tick's
events carry pairwise-distinct event indexes. -/
theorem eventsDedupAmended (u : Upstream) (σ : Cache) (a b : Nat)
    (h1 : ((getTicksInBlockRange u σ a b none).map
      (fun t => (transformTickToBlock u.now (some t)).blockNumber)).Nodup)
    (h2 : ∀ t ∈ getTicksInBlockRange u σ a b none,
      ((tickEvents u σ t).map (fun e => e.eventIndex)).Nodup) :
    ((eventsOut u σ a b).map
      (fun e => (e.block.blockNumber, e.eventIndex))).Nodup := by
  have hperm : ((eventsOut u σ a b).map
      (fun e => (e.block.blockNumber, e.eventIndex))).Perm
      ((collectedEvents u σ a b).map
        (fun e => (e.block.blockNumber, e.eventIndex))) :=
    (sortBy_perm eventLe _).map _
  rw [hperm.nodup_iff]
  unfold collectedEvents
  rw [List.map_flatten, List.map_map, List.nodup_flatten]
  constructor
  · intro l hl
    rcases List.mem_map.mp hl with ⟨t, ht, hteq⟩
    have hkeys : (List.map (fun e : Event =>
          (e.block.blockNumber, e.eventIndex)) ∘ tickEvents u σ) t =
        ((tickEvents u σ t).map (fun e => e.eventIndex)).map
          (fun i => ((transformTickToBlock u.now (some t)).blockNumber, i)) := by
      simp only [Function.comp, List.map_map]
      apply List.map_congr_left
      intro e hemem
      have hb := mem_tickEvents_block u σ t e hemem
      simp [Function.comp, hb]
    rw [← hteq, hkeys]
    apply (h2 t ht).map
    intro i j hij
    injection hij
  · apply List.pairwise_map.mpr
    have h1p : List.Pairwise
        (fun t1 t2 : Tick =>
          (transformTickToBlock u.now (some t1)).blockNumber ≠
            (transformTickToBlock u.now (some t2)).blockNumber)
        (getTicksInBlockRange u σ a b none) :=
      List.pairwise_map.mp h1
    refine h1p.imp ?_
    intro t1 t2 hne x hx1 hx2
    apply hne
    simp only [Function.comp] at hx1 hx2
    rcases List.mem_map.mp hx1 with ⟨e1, he1, hxe1⟩
    rcases List.mem_map.mp hx2 with ⟨e2, he2, hxe2⟩
    have hb1 := mem_tickEvents_block u σ t1 e1 he1
    have hb2 := mem_tickEvents_block u σ t2 e2 he2
    have hx12 : e1.block.blockNumber = e2.block.blockNumber := by
      have := hxe2 ▸ hxe1
      exact congrArg Prod.fst this
    rw [← hb1, ← hb2]
    exact hx12

theorem eventsDedupWitness :
    ((eventsOut uOne emptyCache 1000 1001).map
      (fun e => (e.block.blockNumber, e.eventIndex))).Nodup :=
  eventsDedupAmended uOne emptyCache 1000 1001 (by decide) (by decide)

/-! ## C8 — timestamp resolution -/

theorem tsDescLe_trans (a b c : Tick) (h1 : tsDescLe a b = true)
    (h2 : tsDescLe b c = true) : tsDescLe a c = true := by
  simp only [tsDescLe, decide_eq_true_eq] at h1 h2 ⊢
  omega

theorem tsDescLe_total (a b : Tick) :
    tsDescLe a b = true ∨ tsDescLe b a = true := by
  simp only [tsDescLe, decide_eq_true_eq]
  omega

/-- In a timestamp-descending sorted list, the first tick with timestamp
≤ `ts` has the largest timestamp among all qualifying ticks. -/
theorem find_first_max (ts : Nat) :
    ∀ (l : List Tick), l.Pairwise (fun a b => tsDescLe a b = true) →
      ∀ x, l.find? (fun t => t.timestamp ≤ ts) = some x →
        ∀ y ∈ l, y.timestamp ≤ ts → y.timestamp ≤ x.timestamp := by
  intro l
  induction l with
  | nil => intro _ x hx; simp at hx
  | cons hd tl ih =>
    intro hpw x hx y hy hyts
    rcases List.pairwise_cons.mp hpw with ⟨hh, htl⟩
    by_cases hph : decide (hd.timestamp ≤ ts) = true
    · rw [List.find?_cons_of_pos tl hph] at hx
      apply Option.some.inj at hx
      subst hx
      rcases List.mem_cons.mp hy with rfl | hytl
      · exact le_refl _
      · have := hh y hytl
        simp only [tsDescLe, decide_eq_true_eq] at this
        exact this
    · rw [List.find?_cons_of_neg tl hph] at hx
      rcases List.mem_cons.mp hy with rfl | hytl
      · simp only [decide_eq_true_eq] at hph
        exact absurd hyts hph
      · exact ih htl x hx y hytl hyts

/-- Full account of the epoch scan of `getTickByTimestamp`: a `none`
result means no fetched tick in any scanned epoch qualifies, and a `some`
result splits the scan list at the first epoch holding a qualifying tick
and is a maximal-timestamp qualifier of that epoch. -/
theorem scanSpec (u : Upstream) (ts : Nat) :
    ∀ L : List Nat,
      (tickByTimestampScan u ts L = none →
        ∀ e ∈ L, ∀ t ∈ getAllTicksFromEpoch u e, ts < t.timestamp) ∧
      (∀ x, tickByTimestampScan u ts L = some x →
        ∃ pre e post, L = pre ++ e :: post ∧
          (∀ e2 ∈ pre, ∀ t ∈ getAllTicksFromEpoch u e2, ts < t.timestamp) ∧
          x ∈ getAllTicksFromEpoch u e ∧ x.timestamp ≤ ts ∧
          (∀ y ∈ getAllTicksFromEpoch u e, y.timestamp ≤ ts →
            y.timestamp ≤ x.timestamp)) := by
  intro L
  induction L with
  | nil =>
    constructor
    · intro _ e he
      simp at he
    · intro x hx
      simp [tickByTimestampScan] at hx
  | cons e rest ih =>
    have hnoneEpoch :
        (sortBy tsDescLe (getAllTicksFromEpoch u e)).find?
            (fun t2 => t2.timestamp ≤ ts) = none →
          ∀ t ∈ getAllTicksFromEpoch u e, ts < t.timestamp := by
      intro hf t htmem
      have htsort : t ∈ sortBy tsDescLe (getAllTicksFromEpoch u e) :=
        ((sortBy_perm tsDescLe _).mem_iff).mpr htmem
      have := List.find?_eq_none.mp hf t htsort
      simp only [decide_eq_true_eq] at this
      omega
    constructor
    · intro hnone e2 he2 t ht
      cases hf : (sortBy tsDescLe (getAllTicksFromEpoch u e)).find?
          (fun t2 => t2.timestamp ≤ ts) with
      | some t2 => simp [tickByTimestampScan, hf] at hnone
      | none =>
        have hrest : tickByTimestampScan u ts rest = none := by
          simpa [tickByTimestampScan, hf] using hnone
        rcases List.mem_cons.mp he2 with rfl | h2rest
        · exact hnoneEpoch hf t ht
        · exact ih.1 hrest e2 h2rest t ht
    · intro x hx
      cases hf : (sortBy tsDescLe (getAllTicksFromEpoch u e)).find?
          (fun t2 => t2.timestamp ≤ ts) with
      | some t2 =>
        have hxt : t2 = x := by
          simpa [tickByTimestampScan, hf] using hx
        subst hxt
        refine ⟨[], e, rest, rfl, by simp, ?_, ?_, ?_⟩
        · exact ((sortBy_perm tsDescLe _).mem_iff).mp
            (List.mem_of_find?_eq_some hf)
        · have := List.find?_some hf
          simpa using this
        · intro y hy hyts
          exact find_first_max ts _
            (sortBy_pairwise tsDescLe tsDescLe_trans tsDescLe_total _)
            t2 hf y (((sortBy_perm tsDescLe _).mem_iff).mpr hy) hyts
      | none =>
        have hx2 : tickByTimestampScan u ts rest = some x := by
          simpa [tickByTimestampScan, hf] using hx
        obtain ⟨pre, e3, post, heq, hpre, hmem, hts, hmax⟩ := ih.2 x hx2
        refine ⟨e :: pre, e3, post, by rw [heq]; rfl, ?_, hmem, hts, hmax⟩
        intro e2 he2 t ht
        rcases List.mem_cons.mp he2 with rfl | h2pre
        · exact hnoneEpoch hf t ht
        · exact hpre e2 h2pre t ht

/-- C8: `getTickByTimestamp` scans the current epoch and the five prior
ones (newest first); when some scanned epoch has a fetched tick with
timestamp ≤ `ts`, the result comes from the newest such epoch and carries
the largest qualifying timestamp of that epoch; when no scanned epoch has
one, the result is the current latest-safe tick (`getLatestTick`), not a
NotFound failure. -/
theorem timestampScanConfirmed (u : Upstream) (ts : Nat) :
    ((∀ e ∈ epochScanList (getCurrentEpoch u),
        ∀ t ∈ getAllTicksFromEpoch u e, ts < t.timestamp) →
      getTickByTimestamp u ts = getLatestTick u) ∧
    (∀ x, tickByTimestampScan u ts (epochScanList (getCurrentEpoch u)) =
        some x →
      getTickByTimestamp u ts = x ∧
      ∃ pre e post, epochScanList (getCurrentEpoch u) = pre ++ e :: post ∧
        (∀ e2 ∈ pre, ∀ t ∈ getAllTicksFromEpoch u e2, ts < t.timestamp) ∧
        x ∈ getAllTicksFromEpoch u e ∧ x.timestamp ≤ ts ∧
        (∀ y ∈ getAllTicksFromEpoch u e, y.timestamp ≤ ts →
          y.timestamp ≤ x.timestamp)) := by
  constructor
  · intro hall
    unfold getTickByTimestamp
    cases hs : tickByTimestampScan u ts (epochScanList (getCurrentEpoch u))
        with
    | none => rfl
    | some x =>
      obtain ⟨pre, e, post, heq, _, hmem, hts, _⟩ :=
        (scanSpec u ts _).2 x hs
      have hemem : e ∈ epochScanList (getCurrentEpoch u) := by
        rw [heq]
        exact List.mem_append_right pre (List.mem_cons_self e post)
      exact absurd hts (by have := hall e hemem x hmem; omega)
  · intro x hx
    constructor
    · unfold getTickByTimestamp
      rw [hx]
    · exact (scanSpec u ts _).2 x hx

/-- A single tick with timestamp 50 in the current epoch. -/
def rawTs : RawTick := ⟨some 40, none, some 50, some 4⟩

def uTs : Upstream :=
  { latestTick := none
    status := some 4
    epochTicks := fun e p s =>
      if e = 4 ∧ p = 0 ∧ s = 500 then .ok [rawTs] else .ok []
    tickTransactions := fun _ => none
    probeTransactions := fun _ => false
    now := 777
    fuel := 5 }

theorem timestampScanWitness :
    getTickByTimestamp uTs 100 = ⟨some 40, none, 50, some 4⟩ :=
  ((timestampScanConfirmed uTs 100).2 ⟨some 40, none, 50, some 4⟩
    (by decide)).1

end QubicAdapter
